import Mathlib

/-!
Shallow embedding of `sqlalchemy_history/builder.py` (the single source file of
the repository).  Python classes are modelled by natural-number identifiers
together with an explicit class hierarchy (`Hier`): `issubclass cls c` holds
exactly when `c` occurs in the method-resolution order of `cls`, which is the
semantics of Python's `issubclass` / `getmro`.  The manager's `tables`
dictionary is an association list with Python-dict update semantics
(`dictInsert` overwrites in place, preserving insertion order; fresh keys are
appended).  Observable side effects of the builder (plugin notifications,
relationship attachment, the finalization passes) are recorded as an explicit
event trace.
-/

set_option maxHeartbeats 1000000

/-- A Python class, identified by a number. -/
abbrev ClassId := Nat

/-- A version ("shadow") table produced by `TableBuilder`.  `builder()` with no
argument produces a fresh table for a class; `builder(inherited_table)`
re-derives the table using an already built ancestor table as merge base
(`builder.py` lines 52-57).  The internals of `TableBuilder` are outside
`src/`; the constructors record exactly which of the two invocations happened
and on which class. -/
inductive ShadowTable where
  | fresh (cls : ClassId)
  | merged (base : ShadowTable) (cls : ClassId)
  deriving DecidableEq, Repr

/-- Python dict update `d[k] = v`: overwrite an existing binding in place
(keeping its position in insertion order), otherwise append. -/
def dictInsert {α : Type} : List (ClassId × α) → ClassId → α → List (ClassId × α)
  | [], k, v => [(k, v)]
  | (k', v') :: rest, k, v =>
      if k' = k then (k, v) :: rest else (k', v') :: dictInsert rest k v

/-- Python dict lookup `d[k]` / `k in d`, as an option. -/
def dictLookup {α : Type} : List (ClassId × α) → ClassId → Option α
  | [], _ => none
  | (k', v) :: rest, k => if k' = k then some v else dictLookup rest k

/-- The class hierarchy and table layout of the host application:
`mro cls` is `getmro(cls)` (the method-resolution order of `cls`),
`physTable cls` identifies the physical table object `cls.__table__`, and
`base cls` is `get_declarative_base(cls)` (the declarative base, supplied by
sqlalchemy-utils, outside `src/`). -/
structure Hier where
  mro : ClassId → List ClassId
  physTable : ClassId → Nat
  base : ClassId → ClassId

/-- Python `issubclass(cls, c)`: `c` occurs in `getmro(cls)`. -/
def issubclass (h : Hier) (cls c : ClassId) : Bool :=
  (h.mro cls).contains c

/-- The configuration options consulted by the builder:
the global `versioning` flag, the global `create_models` flag, and the
per-class `versioning` / `create_tables` options (`manager.option(cls, ...)`). -/
structure Opts where
  globalVersioning : Bool
  createModels : Bool
  optVersioning : ClassId → Bool
  optCreateTables : ClassId → Bool

/-- The scan `for class_ in self.manager.tables: if issubclass(cls, class_) and
cls.__table__ == class_.__table__: inherited_table = ...; break` from
`Builder.build_tables` (lines 47-50): find the first key of the tables dict
that is a superclass of `cls` sharing the same physical table, together with
its table. -/
def findInherited (h : Hier) (cls : ClassId) :
    List (ClassId × ShadowTable) → Option (ClassId × ShadowTable)
  | [] => none
  | (c, t) :: rest =>
      if issubclass h cls c && (h.physTable cls == h.physTable c) then some (c, t)
      else findInherited h cls rest

/-- One iteration of the loop body of `Builder.build_tables` (lines 41-57) for
a single pending class `cls`: skip when the class-level `versioning` or
`create_tables` option is off; otherwise, if a key of the tables dict is a
superclass sharing the physical table, overwrite that key's entry with a table
re-derived from it, and otherwise store a fresh table keyed by `cls` itself. -/
def buildTablesStep (h : Hier) (opts : Opts)
    (tables : List (ClassId × ShadowTable)) (cls : ClassId) :
    List (ClassId × ShadowTable) :=
  if opts.optVersioning cls = false then tables
  else if opts.optCreateTables cls = false then tables
  else
    match findInherited h cls tables with
    | some (c, t) => dictInsert tables c (ShadowTable.merged t cls)
    | none => dictInsert tables cls (ShadowTable.fresh cls)

/-- `Builder.build_tables` (lines 35-57): fold the per-class step over the
pending classes in their stored (discovery) order. -/
def buildTables (h : Hier) (opts : Opts)
    (tables : List (ClassId × ShadowTable)) :
    List ClassId → List (ClassId × ShadowTable)
  | [] => tables
  | c :: cs => buildTables h opts (buildTablesStep h opts tables c) cs

/-- `Builder.closest_matching_table` (lines 59-72): exact dict hit first;
otherwise collect the keys that are superclasses of `model`
(`issubclass(model, cls)`), order them by `getmro(model)`, and return the
table of the first one, or `None` when there is none. -/
def closest_matching_table (h : Hier)
    (tables : List (ClassId × ShadowTable)) (model : ClassId) :
    Option ShadowTable :=
  match dictLookup tables model with
  | some t => some t
  | none =>
    let subclasses := (tables.map Prod.fst).filter (fun c => issubclass h model c)
    let ordered_subclasses := (h.mro model).filter (fun c => subclasses.contains c)
    match ordered_subclasses with
    | [] => none
    | c :: _ => dictLookup tables c

/-- The resolver as the specification words it (spec section 4.2): the
exactly-matching entry when the model itself is a key; otherwise the table of
the supertype key appearing earliest in the model's method-resolution order;
none when no key is a supertype of the model. -/
def closestTableSpec (h : Hier)
    (tables : List (ClassId × ShadowTable)) (model : ClassId) :
    Option ShadowTable :=
  match dictLookup tables model with
  | some t => some t
  | none =>
    match (h.mro model).find?
        (fun c => issubclass h model c && (tables.map Prod.fst).contains c) with
    | some c => dictLookup tables c
    | none => none

/-- `Builder.closest_matching_table` with its exact-match fast path (lines
68-69) removed: only the superclass scan remains.  Used to settle the
redundancy claim about that fast path. -/
def closest_matching_table_noexact (h : Hier)
    (tables : List (ClassId × ShadowTable)) (model : ClassId) :
    Option ShadowTable :=
  let subclasses := (tables.map Prod.fst).filter (fun c => issubclass h model c)
  let ordered_subclasses := (h.mro model).filter (fun c => subclasses.contains c)
  match ordered_subclasses with
  | [] => none
  | c :: _ => dictLookup tables c

/-- The mutable state of the versioning manager that `builder.py` reads and
writes: the list of pending classes, the generated tables dict, the map from
an original class to its generated version class (a version class is
identified here by the original class it was generated for), the transaction
class (recorded as the declarative base it was built from, `none` while it
does not exist yet) and the stored declarative base. -/
structure Manager where
  pending_classes : List ClassId
  tables : List (ClassId × ShadowTable)
  version_class_map : List (ClassId × ClassId)
  transaction_cls : Option ClassId
  declarative_base : Option ClassId
  deriving DecidableEq, Repr

/-- Observable effects of a builder run, in the order they occur: plugin
notifications (`after_version_class_built`, `after_build_models`,
`after_build_tx_class`), construction of the transaction class, the
attachment work of one `RelationshipBuilder` invocation, and the four
finalization passes recorded once per processed class (their per-attribute
effects live inside the ORM and are outside this structural model). -/
inductive BuildEvent where
  | versionClassBuilt (cls : ClassId)
  | afterVersionClassBuilt (cls : ClassId)
  | afterBuildModels
  | txConstructed
  | afterBuildTxClass
  | relationshipAttempted (cls : ClassId) (p : String)
  | activeHistoryEnabled (cls : ClassId)
  | columnAliasesCreated (cls : ClassId)
  | associationProxiesCreated (cls : ClassId)
  | hybridPropertiesCreated (cls : ClassId)
  deriving DecidableEq, Repr

/-- Modelled from the spec: `manager.create_transaction_model` is not under
`src/` (only its call site in `Builder.build_transaction_class` is).  Spec
section 4.4: the TransactionEntity is "Constructed exactly once, lazily" and
"If a TransactionEntity already exists, this step is a no-op"; so the model
constructs the transaction class from the stored declarative base only when
none exists yet. -/
def create_transaction_model (m : Manager) : Manager × List BuildEvent :=
  if m.transaction_cls.isSome then (m, [])
  else ({m with transaction_cls := m.declarative_base}, [BuildEvent.txConstructed])

/-- `Builder.build_transaction_class` (lines 128-133): when the pending list
is non-empty, store the declarative base of its first class, run
`create_transaction_model`, and fire the `after_build_tx_class` plugin
notification. -/
def build_transaction_class (h : Hier) (m : Manager) : Manager × List BuildEvent :=
  match m.pending_classes with
  | [] => (m, [])
  | cls :: _ =>
    let m1 := {m with declarative_base := some (h.base cls)}
    let r := create_transaction_model m1
    (r.1, r.2 ++ [BuildEvent.afterBuildTxClass])

/-- One iteration of the loop body of `Builder.build_models` (lines 82-91) for
a single pending class: skip classes whose `versioning` option is off or for
which no table resolves; otherwise run `ModelBuilder` and fire the
`after_version_class_built` plugin notification.  The registration of the new
version class is modelled from the spec (section 4.3: the builder "Registers
the result in the Entity Registry's type map"), since `ModelBuilder` itself is
not under `src/`; the generated version class is identified by its original
class. -/
def processModel (h : Hier) (opts : Opts) (m : Manager) (cls : ClassId) :
    Manager × List BuildEvent :=
  if opts.optVersioning cls = false then (m, [])
  else
    match closest_matching_table h m.tables cls with
    | none => (m, [])
    | some _ =>
      ({m with version_class_map := dictInsert m.version_class_map cls cls},
       [BuildEvent.versionClassBuilt cls, BuildEvent.afterVersionClassBuilt cls])

/-- The `for cls in self.manager.pending_classes` loop of
`Builder.build_models`, threading the manager state and concatenating the
event traces in iteration order. -/
def runModelLoop (h : Hier) (opts : Opts) :
    Manager → List ClassId → Manager × List BuildEvent
  | m, [] => (m, [])
  | m, c :: cs =>
    let r := processModel h opts m c
    let r2 := runModelLoop h opts r.1 cs
    (r2.1, r.2 ++ r2.2)

/-- `Builder.build_models` (lines 74-93): when the pending list is non-empty,
run the per-class loop over it and then fire the `after_build_models` plugin
notification. -/
def build_models (h : Hier) (opts : Opts) (m : Manager) : Manager × List BuildEvent :=
  match m.pending_classes with
  | [] => (m, [])
  | _ :: _ =>
    let r := runModelLoop h opts m m.pending_classes
    (r.1, r.2 ++ [BuildEvent.afterBuildModels])

/-- Modelled from the spec: `RelationshipBuilder` is not under `src/` (only
its invocation in `Builder.build_relationships` is).  Spec sections 3 and 4.5
reserve the `transaction` property of a version class (next to `versions`,
which `builder.py` itself skips) and exclude it from relationship
re-derivation; for any other property the builder attempts to re-derive the
corresponding relationship. -/
def relationshipBuilderRun (cls : ClassId) (p : String) : List BuildEvent :=
  if p = "transaction" then [] else [BuildEvent.relationshipAttempted cls p]

/-- `Builder.build_relationships` (lines 95-110): for every class of the
given list whose `versioning` option is on, iterate its mapped properties
(`props cls` models the keys yielded by `sa.inspect(cls).iterate_properties`),
skip the `versions` property, and invoke a `RelationshipBuilder` on each
remaining property. -/
def build_relationships (opts : Opts) (props : ClassId → List String)
    (version_classes : List ClassId) : List BuildEvent :=
  version_classes.flatMap (fun cls =>
    if opts.optVersioning cls = false then []
    else (props cls).flatMap (fun p =>
      if p = "versions" then [] else relationshipBuilderRun cls p))

/-- Outcome of one call to a function wrapped by `prevent_reentry`: the value
of the closure flag `in_handler` after the call, the manager state, the trace
of events emitted, and whether the call exited by a propagating exception. -/
structure RunResult where
  flag : Bool
  mgr : Manager
  events : List BuildEvent
  raised : Bool
  deriving DecidableEq, Repr

/-- `prevent_reentry` (lines 19-31): a call arriving while `in_handler` is set
returns immediately; otherwise the flag is set, the handler runs, and the flag
is cleared afterwards.  The clearing statement is the line `in_handler =
False` that follows the handler call with no `try`/`finally`, so when the
handler exits by a propagating exception it is skipped and the flag stays set.
The handler reports its final state, its emitted events, and whether it
raised. -/
def checkReentry (handler : Manager → Manager × List BuildEvent × Bool)
    (flag : Bool) (m : Manager) : RunResult :=
  if flag then ⟨flag, m, [], false⟩
  else
    let r := handler m
    if r.2.2 then ⟨true, r.1, r.2.1, true⟩
    else ⟨false, r.1, r.2.1, false⟩

/-- The body of `Builder.configure_versioned_classes` (lines 136-171), without
the `prevent_reentry` wrapper: return early when global versioning is off;
build tables and the transaction class; when `create_models` is off, clear the
pending list and return; otherwise build models, snapshot and clear the
pending list, and run relationship building and the four finalization passes
over the snapshot. -/
def configure_body (h : Hier) (opts : Opts) (props : ClassId → List String)
    (m : Manager) : Manager × List BuildEvent :=
  if opts.globalVersioning = false then (m, [])
  else
    let m1 : Manager := {m with tables := buildTables h opts m.tables m.pending_classes}
    let r1 := build_transaction_class h m1
    if opts.createModels = false then
      ({r1.1 with pending_classes := []}, r1.2)
    else
      let r2 := build_models h opts r1.1
      let copies := r2.1.pending_classes
      let m3 := {r2.1 with pending_classes := []}
      (m3, r1.2 ++ r2.2
        ++ build_relationships opts props copies
        ++ copies.map BuildEvent.activeHistoryEnabled
        ++ copies.map BuildEvent.columnAliasesCreated
        ++ copies.map BuildEvent.associationProxiesCreated
        ++ copies.map BuildEvent.hybridPropertiesCreated)

/-- `Builder.configure_versioned_classes` as decorated by `prevent_reentry`
(line 135): the guarded orchestrator entry point.  The body itself raises no
exception in this model (`builder.py` contains no raise; exceptions originate
in collaborators outside `src/`), so the handler reports `raised = false`. -/
def configure_versioned_classes (h : Hier) (opts : Opts)
    (props : ClassId → List String) (flag : Bool) (m : Manager) : RunResult :=
  checkReentry (fun mm => let r := configure_body h opts props mm; (r.1, r.2, false))
    flag m

/-- A two-class hierarchy sharing one physical table: class 0 is the ancestor
(mro `[0]`), class 1 the subclass (mro `[1, 0]`), both mapped to physical
table 0. -/
def hierPair : Hier :=
  { mro := fun c => if c = 1 then [1, 0] else [c]
  , physTable := fun _ => 0
  , base := fun _ => 0 }

/-- Options with everything switched on. -/
def optsAll : Opts :=
  { globalVersioning := true, createModels := true
  , optVersioning := fun _ => true, optCreateTables := fun _ => true }

/-- Options with `create_models` switched off and everything else on. -/
def optsNoModels : Opts :=
  { globalVersioning := true, createModels := false
  , optVersioning := fun _ => true, optCreateTables := fun _ => true }

/-- An empty manager state. -/
def mgrEmpty : Manager := ⟨[], [], [], none, none⟩

/-- A manager state whose transaction class already exists and whose pending
list is non-empty. -/
def mgrTxExists : Manager := ⟨[1], [], [], some 0, some 0⟩

/-- A manager state with no transaction class and pending class 1. -/
def mgrTxAbsent : Manager := ⟨[1], [], [], none, none⟩

/-- A manager state with two pending classes and nothing derived yet. -/
def mgrTwoPending : Manager := ⟨[0, 1], [], [], none, none⟩

/-- The head of a filtered list is the first element satisfying the
predicate. -/
theorem head?_filter_eq_find? {α : Type} (p : α → Bool) :
    ∀ l : List α, (l.filter p).head? = l.find? p
  | [] => rfl
  | a :: l => by
    by_cases h : p a = true
    · simp [List.filter_cons, List.find?_cons, h]
    · simp only [Bool.not_eq_true] at h
      simp [List.filter_cons, List.find?_cons, h, head?_filter_eq_find? p l]

/-- Membership in a filtered list, as a boolean equation. -/
theorem contains_filter (p : ClassId → Bool) (c : ClassId) (l : List ClassId) :
    (l.filter p).contains c = (p c && l.contains c) := by
  by_cases hp : p c = true
  · simp [List.mem_filter, hp]
  · simp only [Bool.not_eq_true] at hp
    simp [List.mem_filter, hp]

/-- A successful dict lookup means the key is among the dict's keys. -/
theorem dictLookup_some_contains {α : Type} (k : ClassId) (v : α) :
    ∀ tables : List (ClassId × α), dictLookup tables k = some v →
      (tables.map Prod.fst).contains k = true
  | [], h => by simp [dictLookup] at h
  | (k', v') :: rest, h => by
    by_cases hk : k' = k
    · subst hk; simp
    · simp only [dictLookup, if_neg hk] at h
      have hrec := dictLookup_some_contains k v rest h
      simp at hrec ⊢
      exact Or.inr hrec

/-- While the tables dict has the single key `c0`, processing any further
subclass of `c0` sharing its physical table overwrites that same entry, so the
dict keeps the single key `c0`. -/
theorem buildTables_singleton_invariant (h : Hier) (opts : Opts) (c0 : ClassId) :
    ∀ (rest : List ClassId) (t : ShadowTable),
      (∀ c ∈ rest, issubclass h c c0 = true ∧ h.physTable c = h.physTable c0 ∧
        opts.optVersioning c = true ∧ opts.optCreateTables c = true) →
      ∃ t', buildTables h opts [(c0, t)] rest = [(c0, t')]
  | [], t, _ => ⟨t, rfl⟩
  | c :: cs, t, hall => by
    obtain ⟨hsub, hpt, hv, hct⟩ := hall c (List.mem_cons_self c cs)
    have hstep : buildTablesStep h opts [(c0, t)] c = [(c0, ShadowTable.merged t c)] := by
      simp [buildTablesStep, hv, hct, findInherited, hsub, hpt, dictInsert]
    have hunf : buildTables h opts [(c0, t)] (c :: cs)
        = buildTables h opts (buildTablesStep h opts [(c0, t)] c) cs := rfl
    rw [hunf, hstep]
    exact buildTables_singleton_invariant h opts c0 cs (ShadowTable.merged t c)
      (fun d hd => hall d (List.mem_cons_of_mem c hd))

/-- C1 (counterexample).  The claim asserts that for a hierarchy sharing one
physical table the table-derivation step yields exactly one shadow table keyed
by the common ancestor, with the same outcome for every iteration order of the
pending set.  In `hierPair` (ancestor 0, subclass 1, one shared physical
table, everything versioned), processing ancestor first indeed yields the
single entry keyed by class 0, but processing the subclass first yields two
entries, one of them keyed by the subclass — so the outcome is not
order-independent and is not always a single ancestor-keyed table. -/
theorem build_tables_order_dependent_counterexample :
    buildTables hierPair optsAll [] [0, 1]
      = [(0, ShadowTable.merged (ShadowTable.fresh 0) 1)] ∧
    buildTables hierPair optsAll [] [1, 0]
      = [(1, ShadowTable.fresh 1), (0, ShadowTable.fresh 0)] ∧
    (buildTables hierPair optsAll [] [1, 0]).map Prod.fst
      ≠ (buildTables hierPair optsAll [] [0, 1]).map Prod.fst := by
  refine ⟨rfl, rfl, ?_⟩
  decide

/-- C1 (amended).  For an entity hierarchy sharing one physical table, with
all members versioned and table creation enabled, and with the common ancestor
appearing before its subclasses in the pending set, the table-derivation step
over an empty table map produces exactly one shadow table, stored under the
common ancestor's key; this holds for every order of the subclasses among
themselves.  (If a subclass precedes the ancestor, separate subclass-keyed and
ancestor-keyed entries are produced instead — see the counterexample.) -/
theorem build_tables_single_table_hierarchy_ancestor_first
    (h : Hier) (opts : Opts) (c0 : ClassId) (rest : List ClassId)
    (h0v : opts.optVersioning c0 = true) (h0t : opts.optCreateTables c0 = true)
    (hrest : ∀ c ∈ rest, issubclass h c c0 = true ∧
      h.physTable c = h.physTable c0 ∧
      opts.optVersioning c = true ∧ opts.optCreateTables c = true) :
    ∃ t, buildTables h opts [] (c0 :: rest) = [(c0, t)] := by
  have hstep0 : buildTablesStep h opts [] c0 = [(c0, ShadowTable.fresh c0)] := by
    simp [buildTablesStep, h0v, h0t, findInherited, dictInsert]
  have hunf : buildTables h opts [] (c0 :: rest)
      = buildTables h opts (buildTablesStep h opts [] c0) rest := rfl
  rw [hunf, hstep0]
  exact buildTables_singleton_invariant h opts c0 rest _ hrest

/-- C1 (witness): the amended theorem evaluated on the concrete two-class
hierarchy with the ancestor first. -/
theorem build_tables_single_table_hierarchy_ancestor_first_witness :
    ∃ t, buildTables hierPair optsAll [] (0 :: [1]) = [(0, t)] :=
  build_tables_single_table_hierarchy_ancestor_first hierPair optsAll 0 [1]
    rfl rfl (by decide)

/-- C5.  The closest-table resolver returns the exactly-matching entry when
the model itself is a key of the table map; otherwise the table of the
supertype key appearing earliest in the model's method-resolution order
(`closestTableSpec`, worded from the spec); and none when no key is a
supertype.  The second conjunct records that repeated calls on fixed inputs
return the same result (the resolver is a pure function of its inputs). -/
theorem closest_matching_table_spec_characterization (h : Hier)
    (tables : List (ClassId × ShadowTable)) (model : ClassId) :
    closest_matching_table h tables model = closestTableSpec h tables model ∧
    closest_matching_table h tables model = closest_matching_table h tables model := by
  refine ⟨?_, rfl⟩
  unfold closest_matching_table closestTableSpec
  cases hl : dictLookup tables model with
  | some t => rfl
  | none =>
    simp only
    have hfc : (h.mro model).filter
        (fun c => ((tables.map Prod.fst).filter (fun d => issubclass h model d)).contains c)
      = (h.mro model).filter
        (fun c => issubclass h model c && (tables.map Prod.fst).contains c) :=
      List.filter_congr (fun a _ => contains_filter _ a _)
    rw [hfc, ← head?_filter_eq_find?]
    cases (h.mro model).filter
        (fun c => issubclass h model c && (tables.map Prod.fst).contains c) with
    | nil => rfl
    | cons c cs => rfl

/-- C10.  The exact-match fast path of the closest-table resolver is
redundant: whenever the model's method-resolution order starts with the model
itself (an invariant of Python's `getmro`), the resolver without the
fast path returns the same result, because a model that is a key of the table
map is a subclass of itself and heads its own method-resolution order. -/
theorem closest_matching_table_exact_match_redundant (h : Hier)
    (tables : List (ClassId × ShadowTable)) (model : ClassId)
    (hm : ∃ rest, h.mro model = model :: rest) :
    closest_matching_table_noexact h tables model
      = closest_matching_table h tables model := by
  obtain ⟨rest, hmro⟩ := hm
  unfold closest_matching_table closest_matching_table_noexact
  cases hl : dictLookup tables model with
  | none => rfl
  | some t =>
    simp only
    have hsub : issubclass h model model = true := by
      simp [issubclass, hmro]
    have hmem : (tables.map Prod.fst).contains model = true :=
      dictLookup_some_contains model t tables hl
    have hpm : ((tables.map Prod.fst).filter
        (fun d => issubclass h model d)).contains model = true := by
      rw [contains_filter, hsub, Bool.true_and]
      exact hmem
    rw [hmro, List.filter_cons, if_pos hpm]
    exact hl

/-- C10 (witness): the redundancy theorem evaluated on the concrete hierarchy
at class 0, whose method-resolution order is [0]. -/
theorem closest_matching_table_exact_match_redundant_witness :
    closest_matching_table_noexact hierPair [(0, ShadowTable.fresh 0)] 0
      = closest_matching_table hierPair [(0, ShadowTable.fresh 0)] 0 :=
  closest_matching_table_exact_match_redundant hierPair
    [(0, ShadowTable.fresh 0)] 0 ⟨[], rfl⟩

/-- With an empty pending list the transaction-builder step does nothing and
emits nothing. -/
theorem build_transaction_class_nil (h : Hier) (m : Manager)
    (hp : m.pending_classes = []) : build_transaction_class h m = (m, []) := by
  unfold build_transaction_class
  rw [hp]

/-- With an empty pending list the orchestrator body leaves the manager state
unchanged and emits no event. -/
theorem configure_body_empty (h : Hier) (opts : Opts)
    (props : ClassId → List String) (m : Manager)
    (hp : m.pending_classes = []) :
    configure_body h opts props m = (m, []) := by
  obtain ⟨p, tb, vm, tx, db⟩ := m
  simp only [Manager.pending_classes] at hp
  subst hp
  by_cases hgv : opts.globalVersioning = false
  · simp [configure_body, hgv]
  · by_cases hcm : opts.createModels = false
    · simp [configure_body, hgv, hcm, build_transaction_class, buildTables]
    · simp [configure_body, hgv, hcm, build_transaction_class, build_models,
        buildTables, build_relationships]

/-- C2.  When every entity is already fully derived (the pending set is
empty), invoking the orchestrator again returns the manager state — table
map, version-class map and all — completely unchanged, emits no event (so no
new tables, version classes, relationships or notifications), leaves the
reentrancy flag as it was, and raises nothing. -/
theorem configure_second_invocation_noop (h : Hier) (opts : Opts)
    (props : ClassId → List String) (flag : Bool) (m : Manager)
    (hp : m.pending_classes = []) :
    configure_versioned_classes h opts props flag m = ⟨flag, m, [], false⟩ := by
  cases flag with
  | true => rfl
  | false =>
    have hb := configure_body_empty h opts props m hp
    simp [configure_versioned_classes, checkReentry, hb]

/-- C2 (witness): the idempotence theorem evaluated on the empty manager. -/
theorem configure_second_invocation_noop_witness :
    configure_versioned_classes hierPair optsAll (fun _ => []) false mgrEmpty
      = ⟨false, mgrEmpty, [], false⟩ :=
  configure_second_invocation_noop hierPair optsAll (fun _ => []) false mgrEmpty rfl

/-- C3.  An invocation of the reentry-guarded routine arriving while the
guard flag is already set (a nested invocation triggered from inside the
outer run) returns immediately with the state untouched, emits no event and
raises nothing — in particular the version-class map is unchanged, so no
duplicate version class is ever produced for an original class; control
returns to the outer invocation with its state intact.  This holds for every
wrapped handler, hence for the orchestrator itself. -/
theorem nested_invocation_collapses
    (handler : Manager → Manager × List BuildEvent × Bool) (m : Manager) :
    checkReentry handler true m = ⟨true, m, [], false⟩ ∧
    (checkReentry handler true m).mgr.version_class_map = m.version_class_map :=
  ⟨rfl, rfl⟩

/-- C4 (counterexample).  The claim asserts the reentrancy flag is cleared on
every exit of a top-level invocation, including an exit by a propagating
error.  `prevent_reentry` clears the flag in a plain statement after the
handler call, with no try/finally, so a handler that raises leaves the flag
set: here a top-level run (flag initially false) with a raising handler exits
raised with the flag still true. -/
theorem reentry_flag_not_cleared_on_error_counterexample :
    (checkReentry (fun mm => (mm, [], true)) false mgrEmpty).raised = true ∧
    (checkReentry (fun mm => (mm, [], true)) false mgrEmpty).flag = true :=
  ⟨rfl, rfl⟩

/-- C6 (counterexample).  The claim asserts the transaction-builder step is a
no-op when a transaction class already exists.  On a manager whose
transaction class exists (recorded as built from base 5) and whose pending
list is non-empty, the step nevertheless reassigns the stored declarative
base (9 becomes 0, the base of pending class 1) and re-fires the
`after_build_tx_class` notification, so it is not a no-op — though it
constructs no new transaction class. -/
theorem build_transaction_class_not_noop_counterexample :
    build_transaction_class hierPair ⟨[1], [], [], some 5, some 9⟩
      = (⟨[1], [], [], some 5, some 0⟩, [BuildEvent.afterBuildTxClass]) ∧
    build_transaction_class hierPair ⟨[1], [], [], some 5, some 9⟩
      ≠ (⟨[1], [], [], some 5, some 9⟩, []) :=
  ⟨rfl, by decide⟩

/-- C6 (amended).  The transaction class is constructed at most once per
process: the step does nothing when the pending set is empty; when a
transaction class already exists it is left unchanged and no construction
event is emitted (no second transaction class, no fresh-construction
notification) — though the step is not a complete no-op, as it still updates
the stored declarative base and re-fires the `after_build_tx_class`
notification; and when none exists yet it is constructed from the declarative
base of the first pending entity. -/
theorem transaction_class_constructed_at_most_once (h : Hier) (m : Manager) :
    (m.pending_classes = [] → build_transaction_class h m = (m, [])) ∧
    (∀ t, m.transaction_cls = some t →
      (build_transaction_class h m).1.transaction_cls = some t ∧
      BuildEvent.txConstructed ∉ (build_transaction_class h m).2) ∧
    (∀ c cs, m.pending_classes = c :: cs → m.transaction_cls = none →
      (build_transaction_class h m).1.transaction_cls = some (h.base c) ∧
      BuildEvent.txConstructed ∈ (build_transaction_class h m).2) := by
  refine ⟨fun hp => build_transaction_class_nil h m hp, ?_, ?_⟩
  · intro t ht
    cases hp : m.pending_classes with
    | nil => simp [build_transaction_class_nil h m hp, ht]
    | cons c cs =>
      unfold build_transaction_class
      rw [hp]
      simp [create_transaction_model, ht]
  · intro c cs hp ht
    unfold build_transaction_class
    rw [hp]
    simp [create_transaction_model, ht]

/-- C6 (witness): the amended theorem's construction case evaluated on a
manager with pending class 1 and no transaction class yet; the transaction
class is built from that class's declarative base. -/
theorem transaction_class_constructed_at_most_once_witness :
    (build_transaction_class hierPair mgrTxAbsent).1.transaction_cls = some 0 ∧
    BuildEvent.txConstructed ∈ (build_transaction_class hierPair mgrTxAbsent).2 :=
  (transaction_class_constructed_at_most_once hierPair mgrTxAbsent).2.2 1 [] rfl rfl

/-- The events produced by one property of the relationship loop: everything
except `versions` (skipped by `builder.py` itself) and `transaction` (skipped
by the relationship builder) yields a re-derivation attempt. -/
theorem relationship_props_filter (cls : ClassId) :
    ∀ ps : List String,
      (ps.flatMap fun p => if p = "versions" then [] else relationshipBuilderRun cls p)
        = (ps.filter fun p => !(p == "versions") && !(p == "transaction")).map
            (BuildEvent.relationshipAttempted cls)
  | [] => rfl
  | p :: ps => by
    have ih := relationship_props_filter cls ps
    simp only [List.flatMap_cons, List.filter_cons, ih]
    by_cases hv : p = "versions"
    · subst hv
      simp
    · by_cases ht : p = "transaction"
      · subst ht
        simp [relationshipBuilderRun]
      · simp [relationshipBuilderRun, hv, ht]

/-- C7.  For every class processed by the relationship-derivation step (with
its `versioning` option on), relationship re-derivation is attempted for
exactly the mapped properties other than the reserved `versions` and
`transaction` properties: the emitted attempts are the property list filtered
by those two exclusions, in order. -/
theorem relationship_derivation_excludes_reserved (opts : Opts)
    (props : ClassId → List String) (version_classes : List ClassId) :
    build_relationships opts props version_classes
      = version_classes.flatMap (fun cls =>
          if opts.optVersioning cls = false then []
          else ((props cls).filter
              (fun p => !(p == "versions") && !(p == "transaction"))).map
            (BuildEvent.relationshipAttempted cls)) := by
  induction version_classes with
  | nil => rfl
  | cons c cs ih =>
    unfold build_relationships at ih ⊢
    simp only [List.flatMap_cons, ih]
    by_cases hv : opts.optVersioning c = false
    · simp [hv]
    · simp [hv, relationship_props_filter c (props c)]

/-- C4 (amended).  After a top-level invocation of the guarded routine the
reentrancy flag equals the raised indicator: it is cleared exactly when the
handler returned normally, and remains set when the invocation exited by a
propagating error — in which case every subsequent invocation is dropped as
if it were nested (second conjunct). -/
theorem reentry_flag_cleared_iff_normal_exit
    (handler : Manager → Manager × List BuildEvent × Bool) (m : Manager) :
    (checkReentry handler false m).flag = (checkReentry handler false m).raised ∧
    (∀ (handler2 : Manager → Manager × List BuildEvent × Bool) (m2 : Manager),
      checkReentry handler2 true m2 = ⟨true, m2, [], false⟩) := by
  constructor
  · cases hr : (handler m).2.2 <;> simp [checkReentry, hr]
  · intro handler2 m2
    rfl

/-- The transaction-builder step only writes the declarative base and the
transaction class: tables, pending list and version-class map pass through
unchanged. -/
theorem build_transaction_class_preserves (h : Hier) (m : Manager) :
    (build_transaction_class h m).1.tables = m.tables ∧
    (build_transaction_class h m).1.pending_classes = m.pending_classes ∧
    (build_transaction_class h m).1.version_class_map = m.version_class_map := by
  unfold build_transaction_class
  cases hp : m.pending_classes with
  | nil => simp [hp]
  | cons c cs =>
    simp only [create_transaction_model]
    split <;> simp [hp]

/-- The transaction-builder step emits only transaction-related events. -/
theorem build_transaction_class_events (h : Hier) (m : Manager) :
    ∀ e ∈ (build_transaction_class h m).2,
      e = BuildEvent.txConstructed ∨ e = BuildEvent.afterBuildTxClass := by
  unfold build_transaction_class
  cases hp : m.pending_classes with
  | nil => simp
  | cons c cs =>
    simp only [create_transaction_model]
    split <;> simp

/-- One model-building iteration touches only the version-class map. -/
theorem processModel_preserves (h : Hier) (opts : Opts) (m : Manager) (c : ClassId) :
    (processModel h opts m c).1.tables = m.tables ∧
    (processModel h opts m c).1.pending_classes = m.pending_classes ∧
    (processModel h opts m c).1.transaction_cls = m.transaction_cls := by
  unfold processModel
  split
  · simp
  · split <;> simp

/-- The model-building loop emits, for exactly the classes whose `versioning`
option is on and for which a table resolves, one construction event followed
immediately by one `after_version_class_built` notification, in iteration
order; it touches only the version-class map. -/
theorem runModelLoop_spec (h : Hier) (opts : Opts) :
    ∀ (cs : List ClassId) (m : Manager),
      (runModelLoop h opts m cs).2
        = (cs.filter (fun c => opts.optVersioning c &&
            (closest_matching_table h m.tables c).isSome)).flatMap
            (fun c => [BuildEvent.versionClassBuilt c,
                       BuildEvent.afterVersionClassBuilt c]) ∧
      (runModelLoop h opts m cs).1.tables = m.tables ∧
      (runModelLoop h opts m cs).1.pending_classes = m.pending_classes ∧
      (runModelLoop h opts m cs).1.transaction_cls = m.transaction_cls
  | [], m => by simp [runModelLoop]
  | c :: cs, m => by
    unfold runModelLoop
    by_cases hv : opts.optVersioning c = false
    · have hstep : processModel h opts m c = (m, []) := by
        simp [processModel, hv]
      have ih := runModelLoop_spec h opts cs m
      simp [hstep, List.filter_cons, hv, ih.1, ih.2.1, ih.2.2.1, ih.2.2.2]
    · simp only [Bool.not_eq_false] at hv
      cases hct : closest_matching_table h m.tables c with
      | none =>
        have hstep : processModel h opts m c = (m, []) := by
          simp [processModel, hv, hct]
        have ih := runModelLoop_spec h opts cs m
        simp [hstep, List.filter_cons, hv, hct, ih.1, ih.2.1, ih.2.2.1, ih.2.2.2]
      | some t =>
        have hstep : processModel h opts m c
            = ({m with version_class_map := dictInsert m.version_class_map c c},
               [BuildEvent.versionClassBuilt c,
                BuildEvent.afterVersionClassBuilt c]) := by
          simp [processModel, hv, hct]
        have ih := runModelLoop_spec h opts cs
          {m with version_class_map := dictInsert m.version_class_map c c}
        simp [hstep, List.filter_cons, hv, hct, ih.1, ih.2.1, ih.2.2.1, ih.2.2.2]

/-- The model-building step on a non-empty pending list: the per-class blocks
of the loop followed by the single `after_build_models` notification; tables,
pending list and transaction class pass through unchanged. -/
theorem build_models_spec (h : Hier) (opts : Opts) (m : Manager)
    (hne : m.pending_classes ≠ []) :
    (build_models h opts m).2
      = ((m.pending_classes.filter (fun c => opts.optVersioning c &&
            (closest_matching_table h m.tables c).isSome)).flatMap
            (fun c => [BuildEvent.versionClassBuilt c,
                       BuildEvent.afterVersionClassBuilt c]))
        ++ [BuildEvent.afterBuildModels] ∧
    (build_models h opts m).1.tables = m.tables ∧
    (build_models h opts m).1.pending_classes = m.pending_classes ∧
    (build_models h opts m).1.transaction_cls = m.transaction_cls := by
  cases hp : m.pending_classes with
  | nil => exact absurd hp hne
  | cons c cs =>
    unfold build_models
    rw [hp]
    have hr := runModelLoop_spec h opts (c :: cs) m
    refine ⟨?_, ?_, ?_, ?_⟩
    · simp only [hr.1]
    · simp only [hr.2.1]
    · simp only [hr.2.2.1, hp]
    · simp only [hr.2.2.2]

/-- Unfolding of the orchestrator body on the model-building path (global
versioning on, `create_models` on). -/
theorem configure_body_models (h : Hier) (opts : Opts)
    (props : ClassId → List String) (m : Manager)
    (hgv : opts.globalVersioning = true) (hcm : opts.createModels = true) :
    configure_body h opts props m
      = ({(build_models h opts (build_transaction_class h
            {m with tables := buildTables h opts m.tables m.pending_classes}).1).1
          with pending_classes := []},
         (build_transaction_class h
            {m with tables := buildTables h opts m.tables m.pending_classes}).2
         ++ (build_models h opts (build_transaction_class h
              {m with tables := buildTables h opts m.tables m.pending_classes}).1).2
         ++ build_relationships opts props
              (build_models h opts (build_transaction_class h
                {m with tables := buildTables h opts m.tables m.pending_classes}).1).1.pending_classes
         ++ ((build_models h opts (build_transaction_class h
              {m with tables := buildTables h opts m.tables m.pending_classes}).1).1.pending_classes.map
              BuildEvent.activeHistoryEnabled)
         ++ ((build_models h opts (build_transaction_class h
              {m with tables := buildTables h opts m.tables m.pending_classes}).1).1.pending_classes.map
              BuildEvent.columnAliasesCreated)
         ++ ((build_models h opts (build_transaction_class h
              {m with tables := buildTables h opts m.tables m.pending_classes}).1).1.pending_classes.map
              BuildEvent.associationProxiesCreated)
         ++ ((build_models h opts (build_transaction_class h
              {m with tables := buildTables h opts m.tables m.pending_classes}).1).1.pending_classes.map
              BuildEvent.hybridPropertiesCreated)) := by
  simp [configure_body, hgv, hcm]

/-- Every event of the relationship step is a re-derivation attempt. -/
theorem build_relationships_events_shape (opts : Opts)
    (props : ClassId → List String) (l : List ClassId) :
    ∀ e ∈ build_relationships opts props l,
      ∃ c p, e = BuildEvent.relationshipAttempted c p := by
  intro e he
  unfold build_relationships at he
  rw [List.mem_flatMap] at he
  obtain ⟨c, hc, he2⟩ := he
  by_cases hv : opts.optVersioning c = false
  · simp [hv] at he2
  · rw [if_neg hv, List.mem_flatMap] at he2
    obtain ⟨p, hp, he3⟩ := he2
    by_cases hpv : p = "versions"
    · simp [hpv] at he3
    · rw [if_neg hpv] at he3
      unfold relationshipBuilderRun at he3
      by_cases hpt : p = "transaction"
      · simp [hpt] at he3
      · rw [if_neg hpt, List.mem_singleton] at he3
        exact ⟨c, p, he3⟩

/-- Outcome of an orchestrator pass with `create_models` disabled: the pass
ran to completion un-raised, the tables dict is the table-derivation result,
the transaction step ran, the pending list ends empty, the version-class map
is untouched (no version classes built) and only transaction-related events
were emitted (no model, relationship or finalization step ran). -/
def createModelsDisabledOutcome (h : Hier) (opts : Opts)
    (props : ClassId → List String) (m : Manager) : Prop :=
  configure_versioned_classes h opts props false m
    = ⟨false,
       {(build_transaction_class h
           {m with tables := buildTables h opts m.tables m.pending_classes}).1
         with pending_classes := []},
       (build_transaction_class h
           {m with tables := buildTables h opts m.tables m.pending_classes}).2,
       false⟩ ∧
  (configure_versioned_classes h opts props false m).mgr.tables
    = buildTables h opts m.tables m.pending_classes ∧
  (configure_versioned_classes h opts props false m).mgr.pending_classes = [] ∧
  (configure_versioned_classes h opts props false m).mgr.version_class_map
    = m.version_class_map ∧
  (∀ e ∈ (configure_versioned_classes h opts props false m).events,
    e = BuildEvent.txConstructed ∨ e = BuildEvent.afterBuildTxClass)

/-- C8.  In an orchestrator pass with global versioning on and the
`create_models` option off: shadow tables are still derived and the
transaction step still runs, the pending set is cleared to empty, and the
pass ends without building any version class or relationship and without
running the finalization steps — the version-class map is unchanged and the
only events emitted are the transaction step's. -/
theorem create_models_disabled_skips_models (h : Hier) (opts : Opts)
    (props : ClassId → List String) (m : Manager)
    (hgv : opts.globalVersioning = true) (hcm : opts.createModels = false) :
    createModelsDisabledOutcome h opts props m := by
  have hmain : configure_versioned_classes h opts props false m
      = ⟨false,
         {(build_transaction_class h
             {m with tables := buildTables h opts m.tables m.pending_classes}).1
           with pending_classes := []},
         (build_transaction_class h
             {m with tables := buildTables h opts m.tables m.pending_classes}).2,
         false⟩ := by
    simp [configure_versioned_classes, checkReentry, configure_body, hgv, hcm]
  have hpres := build_transaction_class_preserves h
    {m with tables := buildTables h opts m.tables m.pending_classes}
  refine ⟨hmain, ?_, ?_, ?_, ?_⟩
  · rw [hmain]
    exact hpres.1
  · rw [hmain]
  · rw [hmain]
    exact hpres.2.2
  · rw [hmain]
    exact build_transaction_class_events h
      {m with tables := buildTables h opts m.tables m.pending_classes}

/-- C8 (witness): the `create_models`-disabled theorem evaluated on the
concrete two-class hierarchy with two pending classes. -/
theorem create_models_disabled_skips_models_witness :
    createModelsDisabledOutcome hierPair optsNoModels (fun _ => []) mgrTwoPending :=
  create_models_disabled_skips_models hierPair optsNoModels (fun _ => [])
    mgrTwoPending rfl rfl

/-- Outcome of a full model-building orchestrator pass: it completes
un-raised with the pending list cleared, and its event trace is exactly the
transaction step's events, then one construction event immediately followed
by one `after_version_class_built` notification per built class (the pending
classes, in order, that are versioned and resolve a table), then the single
`after_build_models` notification, then the relationship-derivation events
over the snapshot of the pending set, then the four finalization passes over
that same snapshot.  The transaction-step events are only transaction
events, every relationship event is a re-derivation attempt, and the built
classes are pairwise distinct — so every version class of the pass is
constructed, and its per-entity notification fired exactly once directly
after construction, before any relationship is derived. -/
def orchestratorPassOutcome (h : Hier) (opts : Opts)
    (props : ClassId → List String) (m : Manager) : Prop :=
  (configure_versioned_classes h opts props false m).flag = false ∧
  (configure_versioned_classes h opts props false m).raised = false ∧
  (configure_versioned_classes h opts props false m).mgr.pending_classes = [] ∧
  (configure_versioned_classes h opts props false m).events
    = (build_transaction_class h
        {m with tables := buildTables h opts m.tables m.pending_classes}).2
      ++ ((m.pending_classes.filter (fun c => opts.optVersioning c &&
            (closest_matching_table h
              (buildTables h opts m.tables m.pending_classes) c).isSome)).flatMap
            (fun c => [BuildEvent.versionClassBuilt c,
                       BuildEvent.afterVersionClassBuilt c]))
      ++ [BuildEvent.afterBuildModels]
      ++ build_relationships opts props m.pending_classes
      ++ m.pending_classes.map BuildEvent.activeHistoryEnabled
      ++ m.pending_classes.map BuildEvent.columnAliasesCreated
      ++ m.pending_classes.map BuildEvent.associationProxiesCreated
      ++ m.pending_classes.map BuildEvent.hybridPropertiesCreated ∧
  (∀ e ∈ (build_transaction_class h
      {m with tables := buildTables h opts m.tables m.pending_classes}).2,
    e = BuildEvent.txConstructed ∨ e = BuildEvent.afterBuildTxClass) ∧
  (∀ e ∈ build_relationships opts props m.pending_classes,
    ∃ c p, e = BuildEvent.relationshipAttempted c p) ∧
  (m.pending_classes.filter (fun c => opts.optVersioning c &&
    (closest_matching_table h
      (buildTables h opts m.tables m.pending_classes) c).isSome)).Nodup

/-- C9.  Within a single orchestrator pass (versioning on, `create_models`
on, non-empty duplicate-free pending set) every version class is fully
constructed — with its per-entity notification fired exactly once,
immediately after construction — before any relationship derivation begins,
and relationship derivation runs over the snapshot of the pending set, which
is cleared by the end of the pass. -/
theorem orchestrator_pass_builds_all_models_before_relationships
    (h : Hier) (opts : Opts) (props : ClassId → List String) (m : Manager)
    (hgv : opts.globalVersioning = true) (hcm : opts.createModels = true)
    (hne : m.pending_classes ≠ []) (hnd : m.pending_classes.Nodup) :
    orchestratorPassOutcome h opts props m := by
  have hpres := build_transaction_class_preserves h
    {m with tables := buildTables h opts m.tables m.pending_classes}
  have hne1 : (build_transaction_class h
      {m with tables := buildTables h opts m.tables m.pending_classes}).1.pending_classes ≠ [] := by
    rw [hpres.2.1]
    exact hne
  have hbm := build_models_spec h opts (build_transaction_class h
      {m with tables := buildTables h opts m.tables m.pending_classes}).1 hne1
  have hbody := configure_body_models h opts props m hgv hcm
  have hguard : configure_versioned_classes h opts props false m
      = ⟨false, (configure_body h opts props m).1,
          (configure_body h opts props m).2, false⟩ := by
    simp [configure_versioned_classes, checkReentry]
  have hcopies : (build_models h opts (build_transaction_class h
      {m with tables := buildTables h opts m.tables m.pending_classes}).1).1.pending_classes
      = m.pending_classes := by
    rw [hbm.2.2.1, hpres.2.1]
  refine ⟨?_, ?_, ?_, ?_, ?_, ?_, ?_⟩
  · rw [hguard]
  · rw [hguard]
  · rw [hguard, hbody]
  · rw [hguard, hbody]
    simp only [hbm.1, hcopies, hpres.2.1, hpres.1]
    simp [List.append_assoc]
  · exact build_transaction_class_events h
      {m with tables := buildTables h opts m.tables m.pending_classes}
  · exact build_relationships_events_shape opts props m.pending_classes
  · exact hnd.filter _

/-- C9 (witness): the pass-ordering theorem evaluated on the concrete
two-class hierarchy with two pending classes and a property list containing
both reserved names. -/
theorem orchestrator_pass_builds_all_models_before_relationships_witness :
    orchestratorPassOutcome hierPair optsAll
      (fun _ => ["versions", "transaction", "author"]) mgrTwoPending :=
  orchestrator_pass_builds_all_models_before_relationships hierPair optsAll
    (fun _ => ["versions", "transaction", "author"]) mgrTwoPending
    rfl rfl (by decide) (by decide)
